import Mathlib

/-!
Shallow embedding of the media-index core of `src/operations/media.js`
(mcp-da-live-admin): the key normalizer `getGroupingKey`, the index builder
`buildMediaStructures`, the per-site cache with `getMediaIndex` /
`refreshMediaCache`, and the query operations `getMediaStats` and
`findMediaUsage`.  JavaScript `Map`s are modelled as insertion-ordered
association lists; JS string falsiness is modelled by the empty string
(an absent field and the empty string behave identically everywhere the
code reads them); the asynchronous fetch is passed in as an
`Except String (List RawRecord)` argument, and the process-wide cache as
explicit state threaded through each operation.
-/

/-- One row of the raw media-index document (`media.json`).  Fields follow
the data model: `url` is the location identifier (empty string models a
missing or empty value, which JS treats as falsy), `doc` the consuming
document, `alt` the alt text (the literal string "null" is the explicit
no-alt placeholder), `type` the media-kind string, plus timestamps and a
content hash. -/
structure RawRecord where
  url : String
  doc : String
  alt : String
  type : String
  firstUsedAt : Nat
  lastUsedAt : Nat
  hash : String
deriving DecidableEq, Repr

instance : Inhabited RawRecord := ⟨⟨"", "", "", "", 0, 0, ""⟩⟩

/-- Embeds `getGroupingKey` (media.js lines 14-17): an empty/absent url maps
to the empty string; otherwise the url is truncated at the first question
mark (JS `url.split(q)[0]`, the query string dropped) and lower-cased. -/
def getGroupingKey (url : String) : String :=
  if url = "" then "" else ⟨(url.data.takeWhile (fun c => c ≠ '?')).map Char.toLower⟩

/-- A JavaScript `Map` with string keys, as an insertion-ordered association
list.  `Map.get` returns the value at the first (and, with `alSet`
maintained, only) matching key. -/
def alGet {α : Type} (m : List (String × α)) (k : String) : Option α :=
  (m.find? (fun p => p.1 == k)).map (fun p => p.2)

/-- JS `Map.has`. -/
def alHas {α : Type} (m : List (String × α)) (k : String) : Bool :=
  (alGet m k).isSome

/-- JS `Map.set`: updating an existing key keeps its position; a new key is
appended, preserving insertion order. -/
def alSet {α : Type} (m : List (String × α)) (k : String) (v : α) : List (String × α) :=
  if alHas m k then m.map (fun p => if p.1 == k then (k, v) else p) else m ++ [(k, v)]

/-- JS `Map.delete`. -/
def alDelete {α : Type} (m : List (String × α)) (k : String) : List (String × α) :=
  m.filter (fun p => p.1 != k)

/-- A catalogue entry (unique item): JS spreads the first-seen raw record
(`{ ...item, usageCount }`), so it is a copy of that record's attributes
plus the `usageCount` counter. -/
structure UniqueItem where
  item : RawRecord
  usageCount : Nat
deriving DecidableEq, Repr

/-- The usage-detail record pushed onto the usage index
(media.js lines 59-66): the subset `doc`, `alt`, `type`, timestamps, `hash`
of a raw record. -/
structure UsageDetail where
  doc : String
  alt : String
  type : String
  firstUsedAt : Nat
  lastUsedAt : Nat
  hash : String
deriving DecidableEq, Repr

/-- Projection of a raw record to its usage-detail subset. -/
def usageDetailOf (r : RawRecord) : UsageDetail :=
  ⟨r.doc, r.alt, r.type, r.firstUsedAt, r.lastUsedAt, r.hash⟩

/-- One iteration of the `rawData.forEach` loop of `buildMediaStructures`
(media.js lines 46-67) on the pair (uniqueItemsMap, usageIndex): skip
records with a falsy url; otherwise seed the catalogue entry with
`usageCount = 0` when the grouping key is new, increment its `usageCount`,
and append the usage detail to the key's sequence (created on first
sight). -/
def buildStep (st : List (String × UniqueItem) × List (String × List UsageDetail))
    (item : RawRecord) :
    List (String × UniqueItem) × List (String × List UsageDetail) :=
  if item.url = "" then st
  else
    let k := getGroupingKey item.url
    let ui0 := if alHas st.1 k then st.1 else alSet st.1 k ⟨item, 0⟩
    let ui1 := match alGet ui0 k with
      | some e => alSet ui0 k ⟨e.item, e.usageCount + 1⟩
      | none => ui0
    let us0 := if alHas st.2 k then st.2 else alSet st.2 k []
    let us1 := match alGet us0 k with
      | some lst => alSet us0 k (lst ++ [usageDetailOf item])
      | none => us0
    (ui1, us1)

/-- Output of the index builder: the deduplicated catalogue (JS
`Array.from(uniqueItemsMap.values())`, insertion order), the usage index,
and the raw data passed through untouched. -/
structure BuildResult where
  uniqueItems : List UniqueItem
  usageIndex : List (String × List UsageDetail)
  rawData : List RawRecord
deriving DecidableEq, Repr

/-- Embeds `buildMediaStructures` (media.js lines 42-74). -/
def buildMediaStructures (rawData : List RawRecord) : BuildResult :=
  let st := rawData.foldl buildStep ([], [])
  ⟨st.1.map (fun p => p.2), st.2, rawData⟩

/-- The fixed remote path suffix `MEDIA_INDEX_PATH` (media.js line 4). -/
def MEDIA_INDEX_PATH : String := "/.da/mediaindex/media"

/-- JS `path.replace("^/" regex, "")`: drop one leading slash. -/
def stripLeadingSlash (s : String) : String :=
  if s.startsWith "/" then s.drop 1 else s

/-- Embeds `buildMediaPath` (media.js lines 19-21); the optional `path`
argument is falsy when absent or empty. -/
def buildMediaPath (path : Option String) : String :=
  let p := path.getD ""
  if p = "" then MEDIA_INDEX_PATH
  else "/" ++ stripLeadingSlash p ++ MEDIA_INDEX_PATH

/-- Modelled from the spec: `formatURL` lives in `src/common/utils.js`,
which is not among the provided sources.  Spec section 6 fixes only the
relative document path and its sub-path prefixing rule, both produced by
`buildMediaPath`; the surrounding URL shape (admin host, api segment,
org/repo, json extension) is assembled here as a plain concatenation. -/
def formatURL (api org repo p ext : String) : String :=
  "https://admin.da.live/" ++ api ++ "/" ++ org ++ "/" ++ repo ++ p ++ "." ++ ext

/-- Embeds `buildMediaUrl` (media.js lines 23-25). -/
def buildMediaUrl (org repo : String) (path : Option String) : String :=
  formatURL "source" org repo (buildMediaPath path) "json"

/-- Debug payload embedded in the error response (media.js lines 32-38).
The underlying JS error is modelled by its message string
(`error.message || error.toString()`). -/
structure DebugInfo where
  org : String
  repo : String
  path : Option String
  url : String
  error : String
deriving DecidableEq, Repr

/-- The structured error payload of `buildErrorResponse`
(media.js lines 27-40): an `error` marker, a human-actionable `initUrl`,
and the debug payload. -/
structure ErrorResponse where
  error : String
  initUrl : String
  debug : DebugInfo
deriving DecidableEq, Repr

/-- Embeds `buildErrorResponse` (media.js lines 27-40). -/
def buildErrorResponse (org repo : String) (path : Option String) (errMsg : String) :
    ErrorResponse :=
  let displayPath := if path.getD "" = "" then "" else "/" ++ stripLeadingSlash (path.getD "")
  { error := "Media index not found"
    initUrl := "https://main--da-live--adobe.aem.live/apps/media-library?nx=media#" ++
      org ++ "/" ++ repo ++ displayPath
    debug := ⟨org, repo, path, buildMediaUrl org repo path, errMsg⟩ }

/-- A cache entry (media.js line 104): the builder output spread together
with the fetch timestamp. -/
structure CacheEntry where
  uniqueItems : List UniqueItem
  usageIndex : List (String × List UsageDetail)
  rawData : List RawRecord
  fetchedAt : Nat
deriving DecidableEq, Repr

/-- The process-wide `mediaCache` `Map`, threaded explicitly. -/
def Cache : Type := List (String × CacheEntry)

instance : DecidableEq Cache :=
  inferInstanceAs (DecidableEq (List (String × CacheEntry)))

/-- Embeds the template `org/repo/(path or empty)` used as cache key
(media.js lines 86, 168, 213, 257). -/
def cacheKey (org repo : String) (path : Option String) : String :=
  org ++ "/" ++ repo ++ "/" ++ path.getD ""

/-- Result of `getMediaIndex`: either the success object
`{data, total, fetchedAt, cached}` or the error payload (the JS caller
distinguishes the two by probing `index.data`). -/
inductive IndexResult where
  | ok (data : List UniqueItem) (total : Nat) (fetchedAt : Nat) (cached : Bool)
  | err (e : ErrorResponse)
deriving DecidableEq, Repr

/-- Embeds `getMediaIndex` (media.js lines 85-115).  The awaited
`daAdminRequest` is passed in as `fetch`; a successful fetch carries the
raw record list (the JS `data.data || data || []` payload unwrapping), a
failed one the error message.  `now` stands for `Date.now()`.  Returns the
result together with the updated cache. -/
def getMediaIndex (org repo : String) (path : Option String)
    (fetch : Except String (List RawRecord)) (now : Nat) (cache : Cache) :
    IndexResult × Cache :=
  let key := cacheKey org repo path
  match alGet cache key with
  | some entry =>
      (.ok entry.uniqueItems entry.uniqueItems.length entry.fetchedAt true, cache)
  | none =>
      match fetch with
      | .ok mediaData =>
          let structures := buildMediaStructures mediaData
          let entry : CacheEntry :=
            ⟨structures.uniqueItems, structures.usageIndex, structures.rawData, now⟩
          (.ok structures.uniqueItems structures.uniqueItems.length now false,
            alSet cache key entry)
      | .error e => (.err (buildErrorResponse org repo path e), cache)

/-- Embeds `refreshMediaCache` (media.js lines 256-259): delete the cache
entry, then `getMediaIndex`. -/
def refreshMediaCache (org repo : String) (path : Option String)
    (fetch : Except String (List RawRecord)) (now : Nat) (cache : Cache) :
    IndexResult × Cache :=
  getMediaIndex org repo path fetch now (alDelete cache (cacheKey org repo path))

/-- The three-way alt-text counters of `getMediaStats`
(media.js lines 174-178). -/
structure AltStatus where
  filled : Nat
  decorative : Nat
  notFilled : Nat
deriving DecidableEq, Repr

/-- Accumulator of the `rawData.forEach` loop of `getMediaStats`
(media.js lines 172-195). -/
structure StatsAcc where
  typeCount : List (String × Nat)
  unusedCount : Nat
  altStatus : AltStatus
deriving DecidableEq, Repr

/-- One iteration of the stats loop (media.js lines 180-195): the type
defaults to "unknown" for a falsy type, a falsy/empty `doc` counts as
unused, and the alt text is classified as notFilled (the literal "null"),
decorative (empty/absent) or filled (anything else). -/
def statsStep (acc : StatsAcc) (item : RawRecord) : StatsAcc :=
  let t := if item.type = "" then "unknown" else item.type
  let typeCount := alSet acc.typeCount t ((alGet acc.typeCount t).getD 0 + 1)
  let unusedCount := if item.doc = "" then acc.unusedCount + 1 else acc.unusedCount
  let altStatus :=
    if item.alt = "null" then
      { acc.altStatus with notFilled := acc.altStatus.notFilled + 1 }
    else if item.alt = "" then
      { acc.altStatus with decorative := acc.altStatus.decorative + 1 }
    else
      { acc.altStatus with filled := acc.altStatus.filled + 1 }
  ⟨typeCount, unusedCount, altStatus⟩

/-- The success payload of `getMediaStats` (media.js lines 197-203). -/
structure MediaStats where
  uniqueItems : Nat
  totalReferences : Nat
  byType : List (String × Nat)
  unused : Nat
  altText : AltStatus
deriving DecidableEq, Repr

/-- Result of `getMediaStats`: stats object or propagated error payload. -/
inductive StatsResult where
  | ok (s : MediaStats)
  | err (e : ErrorResponse)
deriving DecidableEq, Repr

/-- Embeds `getMediaStats` (media.js lines 161-204).  On an index error the
error payload is returned unchanged (`if (!index.data) return index`).  The
stats run over the cache entry's `rawData`; the JS fallback to `index.data`
when the cache entry is somehow absent is modelled by reading the unique
items' underlying raw attributes, which is exactly what the JS loop would
observe on those spread objects (the branch is unreachable: `getMediaIndex`
has always just populated the cache when it returns data). -/
def getMediaStats (org repo : String) (path : Option String)
    (fetch : Except String (List RawRecord)) (now : Nat) (cache : Cache) :
    StatsResult × Cache :=
  match getMediaIndex org repo path fetch now cache with
  | (.err e, cache1) => (.err e, cache1)
  | (.ok data _total _fetchedAt _cached, cache1) =>
      let key := cacheKey org repo path
      let rawData := match alGet cache1 key with
        | some entry => entry.rawData
        | none => data.map (fun u : UniqueItem => u.item)
      let acc := rawData.foldl statsStep ⟨[], 0, ⟨0, 0, 0⟩⟩
      (.ok ⟨data.length, rawData.length, acc.typeCount, acc.unusedCount, acc.altStatus⟩,
        cache1)

/-- JS `key.includes(sub)`: substring containment. -/
def jsIncludes (s sub : String) : Bool :=
  decide (List.IsInfix sub.data s.data)

/-- JS `[...new Set(xs)]`: iterate and insert, keeping the first occurrence
of each element, in insertion order. -/
def jsSetDedup (l : List String) : List String :=
  l.foldl (fun acc x => if x ∈ acc then acc else acc ++ [x]) []

/-- Order-preserving first-occurrence deduplication: keeps the first
occurrence of every element.  This is the reference description of both the
JS `Map` key insertion discipline and `new Set` iteration order, stated
from the specification's words (first-seen order, one entry per key); the
fold-based code embeddings are proved equal to it. -/
def dedupFirstOcc : List String → List String
  | [] => []
  | x :: xs => x :: dedupFirstOcc (xs.filter (fun y => y != x))
termination_by l => l.length
decreasing_by
  simp_wf
  exact Nat.lt_succ_of_le (List.length_filter_le _ _)

/-- Result of `findMediaUsage`: a propagated index error payload, the
`{error: "Media data not loaded"}` object, or the usage result
`{mediaItem, usageCount, documents, allUsages}` (with `mediaItem := none`
modelling JS `null`/`undefined`). -/
inductive FindResult where
  | err (e : ErrorResponse)
  | errNotLoaded
  | result (mediaItem : Option UniqueItem) (usageCount : Nat)
      (documents : List String) (allUsages : List UsageDetail)
deriving DecidableEq, Repr

/-- Embeds `findMediaUsage` (media.js lines 206-254).  `mediaUrl` and
`mediaName` are optional and JS-falsy when empty.  A grouping key is
resolved from `mediaUrl` directly, else from `mediaName` by the first
usage-index key containing the lower-cased name; a falsy or unknown key
yields the explicit not-found result. -/
def findMediaUsage (org repo : String) (path : Option String)
    (mediaUrl mediaName : Option String)
    (fetch : Except String (List RawRecord)) (now : Nat) (cache : Cache) :
    FindResult × Cache :=
  match getMediaIndex org repo path fetch now cache with
  | (.err e, cache1) => (.err e, cache1)
  | (.ok _data _total _fetchedAt _cached, cache1) =>
      let key := cacheKey org repo path
      match alGet cache1 key with
      | none => (.errNotLoaded, cache1)
      | some entry =>
          let groupingKey : Option String :=
            if mediaUrl.getD "" ≠ "" then some (getGroupingKey (mediaUrl.getD ""))
            else if mediaName.getD "" ≠ "" then
              let nameLower : String := ⟨(mediaName.getD "").data.map Char.toLower⟩
              (entry.usageIndex.find? (fun p => jsIncludes p.1 nameLower)).map
                (fun p => p.1)
            else none
          match groupingKey with
          | none => (.result none 0 [] [], cache1)
          | some k =>
              if k = "" ∨ alHas entry.usageIndex k = false then
                (.result none 0 [] [], cache1)
              else
                let usages := (alGet entry.usageIndex k).getD []
                let docs := jsSetDedup ((usages.map (fun u => u.doc)).filter
                  (fun d => d ≠ ""))
                let mediaItem := entry.uniqueItems.find?
                  (fun item => getGroupingKey item.item.url == k)
                (.result mediaItem usages.length docs usages, cache1)

/-- The canonical grouping key of a raw record. -/
def keyOf (r : RawRecord) : String := getGroupingKey r.url

/-- The raw records that reach a canonical key: those with a non-empty
location identifier. -/
def eligible (l : List RawRecord) : List RawRecord :=
  l.filter (fun r => r.url != "")

/-- The canonical keys of the eligible records, in document order. -/
def keysOf (l : List RawRecord) : List String :=
  (eligible l).map keyOf

/-- The eligible records carrying a given canonical key, in document
order. -/
def keyRecords (l : List RawRecord) (k : String) : List RawRecord :=
  l.filter (fun r => r.url != "" && keyOf r == k)

/-- The catalogue entry the build produces for key `k`: the first sharing
record's attributes and the number of sharing records. -/
def uiEntry (l : List RawRecord) (k : String) : UniqueItem :=
  ⟨(keyRecords l k).headD default, (keyRecords l k).length⟩

/-- The usage-index sequence the build produces for key `k`. -/
def usEntry (l : List RawRecord) (k : String) : List UsageDetail :=
  (keyRecords l k).map usageDetailOf

/-- Closed form of the uniqueItemsMap after the build loop. -/
def canonicalUI (l : List RawRecord) : List (String × UniqueItem) :=
  (dedupFirstOcc (keysOf l)).map (fun k => (k, uiEntry l k))

/-- Closed form of the usageIndex after the build loop. -/
def canonicalUS (l : List RawRecord) : List (String × List UsageDetail) :=
  (dedupFirstOcc (keysOf l)).map (fun k => (k, usEntry l k))

theorem mem_dedupFirstOcc (l : List String) (x : String) :
    x ∈ dedupFirstOcc l ↔ x ∈ l := by
  induction l using dedupFirstOcc.induct with
  | case1 => simp [dedupFirstOcc]
  | case2 a xs ih =>
      rw [dedupFirstOcc]
      simp only [List.mem_cons, ih, List.mem_filter, bne_iff_ne]
      constructor
      · rintro (rfl | ⟨h, _⟩)
        · exact Or.inl rfl
        · exact Or.inr h
      · rintro (rfl | h)
        · exact Or.inl rfl
        · by_cases hx : x = a
          · exact Or.inl hx
          · exact Or.inr ⟨h, by simpa using hx⟩

theorem nodup_dedupFirstOcc (l : List String) : (dedupFirstOcc l).Nodup := by
  induction l using dedupFirstOcc.induct with
  | case1 => simp [dedupFirstOcc]
  | case2 a xs ih =>
      rw [dedupFirstOcc]
      refine List.nodup_cons.mpr ⟨?_, ih⟩
      intro hmem
      have := (mem_dedupFirstOcc _ _).mp hmem
      simp [List.mem_filter] at this

theorem dedupFirstOcc_append_singleton (l : List String) (x : String) :
    dedupFirstOcc (l ++ [x]) =
      if x ∈ l then dedupFirstOcc l else dedupFirstOcc l ++ [x] := by
  induction l using dedupFirstOcc.induct with
  | case1 => simp [dedupFirstOcc]
  | case2 a xs ih =>
      rw [List.cons_append, dedupFirstOcc, List.filter_append]
      by_cases hxa : x = a
      · subst hxa
        simp [dedupFirstOcc, List.mem_cons]
      · have hxa2 : (x != a) = true := by simpa using hxa
        have hfx : List.filter (fun y => y != a) [x] = [x] := by
          simp [List.filter, hxa2]
        rw [hfx, ih]
        by_cases hmem : x ∈ xs.filter (fun y => y != a)
        · have hx2 : x ∈ xs := (List.mem_filter.mp hmem).1
          simp [hmem, dedupFirstOcc, List.mem_cons, hx2, hxa]
        · have hx2 : x ∉ xs := by
            intro hc
            exact hmem (List.mem_filter.mpr ⟨hc, by simpa using hxa⟩)
          have : ¬ (x = a ∨ x ∈ xs) := by
            rintro (h | h)
            · exact hxa h
            · exact hx2 h
          simp [hmem, dedupFirstOcc, List.mem_cons, this]

theorem length_dedupFirstOcc_le (l : List String) :
    (dedupFirstOcc l).length ≤ l.length := by
  induction l using dedupFirstOcc.induct with
  | case1 => simp [dedupFirstOcc]
  | case2 a xs ih =>
      rw [dedupFirstOcc]
      simp only [List.length_cons]
      exact Nat.succ_le_succ (le_trans ih (List.length_filter_le _ _))

theorem dedupFirstOcc_eq_self_of_nodup (l : List String) (h : l.Nodup) :
    dedupFirstOcc l = l := by
  induction l using dedupFirstOcc.induct with
  | case1 => simp [dedupFirstOcc]
  | case2 a xs ih =>
      rw [dedupFirstOcc]
      have hax : a ∉ xs := (List.nodup_cons.mp h).1
      have hfil : xs.filter (fun y => y != a) = xs := by
        apply List.filter_eq_self.mpr
        intro y hy
        simp only [bne_iff_ne, ne_eq, decide_eq_true_eq]
        intro hya
        exact hax (hya ▸ hy)
      rw [hfil] at ih ⊢
      rw [ih ((List.nodup_cons.mp h).2)]

theorem length_dedupFirstOcc_eq_iff (l : List String) :
    (dedupFirstOcc l).length = l.length ↔ l.Nodup := by
  constructor
  · intro h
    have hsub : List.Sublist (dedupFirstOcc l) l := by
      clear h
      induction l using dedupFirstOcc.induct with
      | case1 => simp [dedupFirstOcc]
      | case2 a xs ih =>
          rw [dedupFirstOcc]
          exact List.Sublist.cons₂ a (ih.trans (List.filter_sublist _))
    have heq : dedupFirstOcc l = l := hsub.eq_of_length h
    have := nodup_dedupFirstOcc l
    rw [heq] at this
    exact this
  · intro h
    rw [dedupFirstOcc_eq_self_of_nodup l h]

theorem alGet_mapKeys {α : Type} (ks : List String) (f : String → α) (j : String) :
    alGet (ks.map (fun k => (k, f k))) j = if j ∈ ks then some (f j) else none := by
  induction ks with
  | nil => simp [alGet]
  | cons a rest ih =>
      by_cases haj : a = j
      · subst haj
        simp [alGet, List.find?]
      · have : (a == j) = false := by simpa using haj
        simp only [List.map_cons, alGet, List.find?, this]
        rw [show ((List.find? (fun p => p.1 == j) (rest.map fun k => (k, f k))).map
            (fun p => p.2)) = alGet (rest.map fun k => (k, f k)) j from rfl, ih]
        simp [List.mem_cons, haj, Ne.symm haj]

theorem alHas_mapKeys {α : Type} (ks : List String) (f : String → α) (j : String) :
    alHas (ks.map (fun k => (k, f k))) j = true ↔ j ∈ ks := by
  rw [alHas, alGet_mapKeys]
  by_cases h : j ∈ ks <;> simp [h]

theorem alSet_mapKeys_mem {α : Type} (ks : List String) (f : String → α) (j : String)
    (v : α) (h : j ∈ ks) :
    alSet (ks.map (fun k => (k, f k))) j v =
      ks.map (fun k => (k, if k = j then v else f k)) := by
  rw [alSet, if_pos ((alHas_mapKeys ks f j).mpr h), List.map_map]
  apply List.map_congr_left
  intro a _
  by_cases haj : a = j
  · subst haj
    simp
  · have : (a == j) = false := by simpa using haj
    simp [Function.comp, this, haj]

theorem alSet_notHas {α : Type} (m : List (String × α)) (j : String) (v : α)
    (h : alHas m j = false) : alSet m j v = m ++ [(j, v)] := by
  rw [alSet, if_neg]
  simp [h]

theorem alGet_append_fresh {α : Type} (m : List (String × α)) (j : String) (v : α)
    (h : alHas m j = false) : alGet (m ++ [(j, v)]) j = some v := by
  rw [alGet, List.find?_append]
  have hnone : m.find? (fun p => p.1 == j) = none := by
    cases hf : m.find? (fun p => p.1 == j) with
    | none => rfl
    | some p => rw [alHas, alGet, hf] at h; simp at h
  rw [hnone]
  simp [List.find?]

theorem alSet_append_fresh {α : Type} (m : List (String × α)) (j : String) (v w : α)
    (hm : ∀ p ∈ m, p.1 ≠ j) :
    alSet (m ++ [(j, v)]) j w = m ++ [(j, w)] := by
  have hhas : alHas (m ++ [(j, v)]) j = true := by
    have hnone : m.find? (fun p => p.1 == j) = none := by
      rw [List.find?_eq_none]
      intro p hp
      simpa using hm p hp
    rw [alHas, alGet, List.find?_append, hnone]
    simp [List.find?]
  rw [alSet, if_pos hhas, List.map_append]
  congr 1
  · have heq : List.map (fun p => if (p.1 == j) = true then (j, w) else p) m =
        List.map id m := by
      apply List.map_congr_left
      intro p hp
      have h2 : (p.1 == j) = false := by simpa using hm p hp
      simp [h2]
    rw [heq, List.map_id]
  · simp [List.map]

theorem headD_append_of_ne_nil {α : Type} (xs ys : List α) (d : α) (h : xs ≠ []) :
    (xs ++ ys).headD d = xs.headD d := by
  cases xs with
  | nil => exact absurd rfl h
  | cons a t => rfl

theorem keyRecords_append_ineligible (l : List RawRecord) (r : RawRecord) (k : String)
    (h : r.url = "") : keyRecords (l ++ [r]) k = keyRecords l k := by
  rw [keyRecords, List.filter_append, keyRecords]
  simp [h]

theorem keyRecords_append_other (l : List RawRecord) (r : RawRecord) (k : String)
    (h : keyOf r ≠ k) : keyRecords (l ++ [r]) k = keyRecords l k := by
  rw [keyRecords, List.filter_append, keyRecords]
  have : (keyOf r == k) = false := by simpa using h
  simp [this]

theorem keyRecords_append_self (l : List RawRecord) (r : RawRecord)
    (h : r.url ≠ "") : keyRecords (l ++ [r]) (keyOf r) = keyRecords l (keyOf r) ++ [r] := by
  rw [keyRecords, List.filter_append, keyRecords]
  have h2 : (r.url != "") = true := by simpa using h
  simp [h2]

theorem keysOf_append_ineligible (l : List RawRecord) (r : RawRecord)
    (h : r.url = "") : keysOf (l ++ [r]) = keysOf l := by
  rw [keysOf, eligible, List.filter_append, keysOf, eligible]
  simp [h]

theorem keysOf_append_eligible (l : List RawRecord) (r : RawRecord)
    (h : r.url ≠ "") : keysOf (l ++ [r]) = keysOf l ++ [keyOf r] := by
  rw [keysOf, eligible, List.filter_append, keysOf, eligible]
  have h2 : (r.url != "") = true := by simpa using h
  simp [h2]

theorem keyRecords_eq_nil_of_notMem (l : List RawRecord) (k : String)
    (h : k ∉ keysOf l) : keyRecords l k = [] := by
  rw [keyRecords, List.filter_eq_nil_iff]
  intro r hr
  simp only [Bool.and_eq_true, bne_iff_ne, ne_eq, beq_iff_eq, not_and]
  intro hurl hkey
  apply h
  rw [keysOf, eligible]
  exact List.mem_map.mpr ⟨r, List.mem_filter.mpr ⟨hr, by simpa using hurl⟩, hkey⟩

theorem keyRecords_ne_nil_of_mem (l : List RawRecord) (k : String)
    (h : k ∈ keysOf l) : keyRecords l k ≠ [] := by
  rw [keysOf, eligible] at h
  obtain ⟨r, hr, hk⟩ := List.mem_map.mp h
  obtain ⟨hrl, hurl⟩ := List.mem_filter.mp hr
  intro hnil
  have : r ∈ keyRecords l k := by
    rw [keyRecords]
    refine List.mem_filter.mpr ⟨hrl, ?_⟩
    simp only [Bool.and_eq_true, beq_iff_eq]
    exact ⟨hurl, hk⟩
  rw [hnil] at this
  exact (List.not_mem_nil r) this

theorem uiEntry_append_self (l : List RawRecord) (r : RawRecord) (hurl : r.url ≠ "")
    (hne : keyRecords l (keyOf r) ≠ []) :
    uiEntry (l ++ [r]) (keyOf r) =
      ⟨(uiEntry l (keyOf r)).item, (uiEntry l (keyOf r)).usageCount + 1⟩ := by
  rw [uiEntry, uiEntry, keyRecords_append_self l r hurl,
    headD_append_of_ne_nil _ _ _ hne, List.length_append]
  rfl

theorem usEntry_append_self (l : List RawRecord) (r : RawRecord) (hurl : r.url ≠ "") :
    usEntry (l ++ [r]) (keyOf r) = usEntry l (keyOf r) ++ [usageDetailOf r] := by
  rw [usEntry, usEntry, keyRecords_append_self l r hurl, List.map_append]
  rfl

theorem uiEntry_append_other (l : List RawRecord) (r : RawRecord) (k : String)
    (hk : keyOf r ≠ k) : uiEntry (l ++ [r]) k = uiEntry l k := by
  rw [uiEntry, uiEntry, keyRecords_append_other l r k hk]

theorem usEntry_append_other (l : List RawRecord) (r : RawRecord) (k : String)
    (hk : keyOf r ≠ k) : usEntry (l ++ [r]) k = usEntry l k := by
  rw [usEntry, usEntry, keyRecords_append_other l r k hk]

theorem buildStep_skip (st : List (String × UniqueItem) × List (String × List UsageDetail))
    (r : RawRecord) (hurl : r.url = "") : buildStep st r = st := by
  rw [buildStep, if_pos hurl]

theorem buildStep_known (st : List (String × UniqueItem) × List (String × List UsageDetail))
    (r : RawRecord) (hurl : r.url ≠ "") (e : UniqueItem) (lst : List UsageDetail)
    (h1 : alHas st.1 (getGroupingKey r.url) = true)
    (h2 : alHas st.2 (getGroupingKey r.url) = true)
    (h3 : alGet st.1 (getGroupingKey r.url) = some e)
    (h4 : alGet st.2 (getGroupingKey r.url) = some lst) :
    buildStep st r =
      (alSet st.1 (getGroupingKey r.url) ⟨e.item, e.usageCount + 1⟩,
       alSet st.2 (getGroupingKey r.url) (lst ++ [usageDetailOf r])) := by
  rw [buildStep, if_neg hurl]
  dsimp only
  rw [if_pos h1, if_pos h2, h3, h4]

theorem buildStep_fresh (st : List (String × UniqueItem) × List (String × List UsageDetail))
    (r : RawRecord) (hurl : r.url ≠ "")
    (h1 : alHas st.1 (getGroupingKey r.url) = false)
    (h2 : alHas st.2 (getGroupingKey r.url) = false)
    (hk1 : ∀ p ∈ st.1, p.1 ≠ getGroupingKey r.url)
    (hk2 : ∀ p ∈ st.2, p.1 ≠ getGroupingKey r.url) :
    buildStep st r =
      (st.1 ++ [(getGroupingKey r.url, ⟨r, 1⟩)],
       st.2 ++ [(getGroupingKey r.url, [usageDetailOf r])]) := by
  rw [buildStep, if_neg hurl]
  dsimp only
  rw [if_neg (by simp [h1]), if_neg (by simp [h2]),
    alSet_notHas _ _ _ h1, alSet_notHas _ _ _ h2,
    alGet_append_fresh _ _ _ h1, alGet_append_fresh _ _ _ h2]
  dsimp only
  rw [alSet_append_fresh _ _ _ _ hk1, alSet_append_fresh _ _ _ _ hk2]
  rfl

theorem build_loop_canonical (l : List RawRecord) :
    l.foldl buildStep ([], []) = (canonicalUI l, canonicalUS l) := by
  induction l using List.reverseRecOn with
  | nil =>
      simp [canonicalUI, canonicalUS, keysOf, eligible, dedupFirstOcc]
  | append_singleton l r ih =>
      rw [List.foldl_append, List.foldl_cons, List.foldl_nil, ih]
      by_cases hurl : r.url = ""
      · rw [buildStep_skip _ r hurl]
        have hui : uiEntry (l ++ [r]) = uiEntry l := by
          funext k
          rw [uiEntry, uiEntry, keyRecords_append_ineligible l r k hurl]
        have hus : usEntry (l ++ [r]) = usEntry l := by
          funext k
          rw [usEntry, usEntry, keyRecords_append_ineligible l r k hurl]
        have h1 : canonicalUI (l ++ [r]) = canonicalUI l := by
          rw [canonicalUI, keysOf_append_ineligible l r hurl, hui, canonicalUI]
        have h2 : canonicalUS (l ++ [r]) = canonicalUS l := by
          rw [canonicalUS, keysOf_append_ineligible l r hurl, hus, canonicalUS]
        rw [h1, h2]
      · by_cases hmem : keyOf r ∈ keysOf l
        · have hmemd : keyOf r ∈ dedupFirstOcc (keysOf l) :=
            (mem_dedupFirstOcc _ _).mpr hmem
          have hne : keyRecords l (keyOf r) ≠ [] := keyRecords_ne_nil_of_mem l _ hmem
          have hhasUI : alHas (canonicalUI l) (keyOf r) = true :=
            (alHas_mapKeys _ _ _).mpr hmemd
          have hhasUS : alHas (canonicalUS l) (keyOf r) = true :=
            (alHas_mapKeys _ _ _).mpr hmemd
          have hgetUI : alGet (canonicalUI l) (keyOf r) = some (uiEntry l (keyOf r)) := by
            rw [canonicalUI, alGet_mapKeys, if_pos hmemd]
          have hgetUS : alGet (canonicalUS l) (keyOf r) = some (usEntry l (keyOf r)) := by
            rw [canonicalUS, alGet_mapKeys, if_pos hmemd]
          have hcanUI : canonicalUI (l ++ [r]) =
              (dedupFirstOcc (keysOf l)).map (fun k => (k,
                if k = keyOf r then
                  ⟨(uiEntry l (keyOf r)).item, (uiEntry l (keyOf r)).usageCount + 1⟩
                else uiEntry l k)) := by
            rw [canonicalUI, keysOf_append_eligible l r hurl,
              dedupFirstOcc_append_singleton, if_pos hmem]
            apply List.map_congr_left
            intro k hk
            by_cases hkk : k = keyOf r
            · subst hkk
              rw [uiEntry_append_self l r hurl hne]
              simp
            · rw [uiEntry_append_other l r k (fun hc => hkk hc.symm)]
              simp [hkk]
          have hcanUS : canonicalUS (l ++ [r]) =
              (dedupFirstOcc (keysOf l)).map (fun k => (k,
                if k = keyOf r then usEntry l (keyOf r) ++ [usageDetailOf r]
                else usEntry l k)) := by
            rw [canonicalUS, keysOf_append_eligible l r hurl,
              dedupFirstOcc_append_singleton, if_pos hmem]
            apply List.map_congr_left
            intro k hk
            by_cases hkk : k = keyOf r
            · subst hkk
              rw [usEntry_append_self l r hurl]
              simp
            · rw [usEntry_append_other l r k (fun hc => hkk hc.symm)]
              simp [hkk]
          rw [buildStep_known _ r hurl (uiEntry l (keyOf r)) (usEntry l (keyOf r))
            hhasUI hhasUS hgetUI hgetUS, hcanUI, hcanUS]
          dsimp only
          rw [canonicalUI, canonicalUS, show getGroupingKey r.url = keyOf r from rfl,
            alSet_mapKeys_mem _ _ _ _ hmemd, alSet_mapKeys_mem _ _ _ _ hmemd]
        · have hmemd : keyOf r ∉ dedupFirstOcc (keysOf l) := by
            intro hc
            exact hmem ((mem_dedupFirstOcc _ _).mp hc)
          have hnil : keyRecords l (keyOf r) = [] :=
            keyRecords_eq_nil_of_notMem l _ hmem
          have hhasUI : alHas (canonicalUI l) (keyOf r) = false := by
            rw [canonicalUI]
            cases hb : alHas ((dedupFirstOcc (keysOf l)).map
                (fun k => (k, uiEntry l k))) (keyOf r) with
            | false => rfl
            | true => exact absurd ((alHas_mapKeys _ _ _).mp hb) hmemd
          have hhasUS : alHas (canonicalUS l) (keyOf r) = false := by
            rw [canonicalUS]
            cases hb : alHas ((dedupFirstOcc (keysOf l)).map
                (fun k => (k, usEntry l k))) (keyOf r) with
            | false => rfl
            | true => exact absurd ((alHas_mapKeys _ _ _).mp hb) hmemd
          have hkeysUI : ∀ p ∈ canonicalUI l, p.1 ≠ keyOf r := by
            intro p hp
            rw [canonicalUI] at hp
            obtain ⟨k, hk, hpk⟩ := List.mem_map.mp hp
            intro hc
            rw [← hpk] at hc
            exact hmemd (hc ▸ hk)
          have hkeysUS : ∀ p ∈ canonicalUS l, p.1 ≠ keyOf r := by
            intro p hp
            rw [canonicalUS] at hp
            obtain ⟨k, hk, hpk⟩ := List.mem_map.mp hp
            intro hc
            rw [← hpk] at hc
            exact hmemd (hc ▸ hk)
          have hcanUI : canonicalUI (l ++ [r]) =
              canonicalUI l ++ [(keyOf r, ⟨r, 1⟩)] := by
            rw [canonicalUI, keysOf_append_eligible l r hurl,
              dedupFirstOcc_append_singleton, if_neg hmem, List.map_append]
            congr 1
            · rw [canonicalUI]
              apply List.map_congr_left
              intro k hk
              have hkk : keyOf r ≠ k := fun hc => hmemd (hc ▸ hk)
              rw [uiEntry_append_other l r k hkk]
            · rw [List.map_singleton, uiEntry, keyRecords_append_self l r hurl, hnil]
              rfl
          have hcanUS : canonicalUS (l ++ [r]) =
              canonicalUS l ++ [(keyOf r, [usageDetailOf r])] := by
            rw [canonicalUS, keysOf_append_eligible l r hurl,
              dedupFirstOcc_append_singleton, if_neg hmem, List.map_append]
            congr 1
            · rw [canonicalUS]
              apply List.map_congr_left
              intro k hk
              have hkk : keyOf r ≠ k := fun hc => hmemd (hc ▸ hk)
              rw [usEntry_append_other l r k hkk]
            · rw [List.map_singleton, usEntry, keyRecords_append_self l r hurl, hnil]
              rfl
          rw [buildStep_fresh _ r hurl hhasUI hhasUS hkeysUI hkeysUS, hcanUI, hcanUS]
          rfl

theorem map_update_id {α : Type} (m : List (String × α)) (k : String) (v : α)
    (h : ∀ p ∈ m, p.1 ≠ k) :
    m.map (fun p => if p.1 == k then (k, v) else p) = m := by
  have heq : m.map (fun p => if p.1 == k then (k, v) else p) = List.map id m := by
    apply List.map_congr_left
    intro p hp
    have h2 : (p.1 == k) = false := by simpa using h p hp
    simp [h2]
  rw [heq, List.map_id]

theorem alGet_cons {α : Type} (p : String × α) (rest : List (String × α)) (k : String) :
    alGet (p :: rest) k = if p.1 == k then some p.2 else alGet rest k := by
  by_cases h : (p.1 == k) = true
  · simp [alGet, List.find?, h]
  · have hb : (p.1 == k) = false := by simpa using h
    simp [alGet, List.find?, hb]

theorem alHas_cons {α : Type} (p : String × α) (rest : List (String × α)) (k : String) :
    alHas (p :: rest) k = if p.1 == k then true else alHas rest k := by
  rw [alHas, alGet_cons]
  by_cases h : (p.1 == k) = true
  · simp [h]
  · have hb : (p.1 == k) = false := by simpa using h
    simp [hb, alHas]

theorem alGet_map_update {α : Type} (m : List (String × α)) (k : String) (v : α) :
    alGet (m.map (fun p => if p.1 == k then (k, v) else p)) k =
      if alHas m k then some v else none := by
  induction m with
  | nil => simp [alGet, alHas]
  | cons p rest ih =>
      rw [List.map_cons, alGet_cons, alHas_cons]
      by_cases hpk : (p.1 == k) = true
      · simp [hpk]
      · simp only [if_neg hpk]
        exact ih

theorem alGet_alSet_self {α : Type} (m : List (String × α)) (k : String) (v : α) :
    alGet (alSet m k v) k = some v := by
  cases hhas : alHas m k with
  | true =>
      rw [alSet, if_pos hhas, alGet_map_update, if_pos hhas]
  | false =>
      rw [alSet_notHas _ _ _ hhas, alGet_append_fresh _ _ _ hhas]

theorem alGet_alDelete_self {α : Type} (m : List (String × α)) (k : String) :
    alGet (alDelete m k) k = none := by
  induction m with
  | nil => rfl
  | cons p rest ih =>
      by_cases hpk : p.1 = k
      · have hb : (p.1 != k) = false := by simpa using hpk
        simp only [alDelete, List.filter, hb]
        exact ih
      · have hb : (p.1 != k) = true := by simpa using hpk
        have hb2 : (p.1 == k) = false := by simpa using hpk
        simp only [alDelete, List.filter, hb]
        rw [alGet_cons, if_neg (by simp [hb2])]
        exact ih

theorem getMediaIndex_hit (org repo : String) (path : Option String)
    (fetch : Except String (List RawRecord)) (now : Nat) (cache : Cache)
    (entry : CacheEntry) (hhit : alGet cache (cacheKey org repo path) = some entry) :
    getMediaIndex org repo path fetch now cache =
      (.ok entry.uniqueItems entry.uniqueItems.length entry.fetchedAt true, cache) := by
  rw [getMediaIndex.eq_def]
  dsimp only
  rw [hhit]

theorem getMediaIndex_miss_ok (org repo : String) (path : Option String)
    (lst : List RawRecord) (now : Nat) (cache : Cache)
    (hmiss : alGet cache (cacheKey org repo path) = none) :
    getMediaIndex org repo path (Except.ok lst) now cache =
      (.ok (buildMediaStructures lst).uniqueItems
        (buildMediaStructures lst).uniqueItems.length now false,
       alSet cache (cacheKey org repo path)
         ⟨(buildMediaStructures lst).uniqueItems, (buildMediaStructures lst).usageIndex,
          (buildMediaStructures lst).rawData, now⟩) := by
  rw [getMediaIndex.eq_def]
  dsimp only
  rw [hmiss]

theorem getMediaIndex_miss_err (org repo : String) (path : Option String)
    (msg : String) (now : Nat) (cache : Cache)
    (hmiss : alGet cache (cacheKey org repo path) = none) :
    getMediaIndex org repo path (Except.error msg) now cache =
      (.err (buildErrorResponse org repo path msg), cache) := by
  rw [getMediaIndex.eq_def]
  dsimp only
  rw [hmiss]

/-- C4: a `get_index` call that finds an existing cache entry returns
`cached:true` with `data` identical to that entry's `uniqueItems`, leaving
the cache unchanged; `refresh_cache` deletes the entry and, after a
successful re-fetch, returns `cached:false`; a subsequent plain `get_index`
for the same site then returns `cached:true` (with the freshly built
data). -/
theorem cache_correctness (org repo : String) (path : Option String)
    (fetch : Except String (List RawRecord)) (now : Nat) (cache : Cache) :
    (∀ entry, alGet cache (cacheKey org repo path) = some entry →
      getMediaIndex org repo path fetch now cache =
        (.ok entry.uniqueItems entry.uniqueItems.length entry.fetchedAt true, cache)) ∧
    (∀ lst : List RawRecord, ∀ fetch2 : Except String (List RawRecord), ∀ now2 : Nat,
      (refreshMediaCache org repo path (Except.ok lst) now cache).1 =
        .ok (buildMediaStructures lst).uniqueItems
          (buildMediaStructures lst).uniqueItems.length now false ∧
      (getMediaIndex org repo path fetch2 now2
          (refreshMediaCache org repo path (Except.ok lst) now cache).2).1 =
        .ok (buildMediaStructures lst).uniqueItems
          (buildMediaStructures lst).uniqueItems.length now true) := by
  constructor
  · intro entry hhit
    exact getMediaIndex_hit org repo path fetch now cache entry hhit
  · intro lst fetch2 now2
    have hmiss : alGet (alDelete cache (cacheKey org repo path))
        (cacheKey org repo path) = none :=
      alGet_alDelete_self cache (cacheKey org repo path)
    have href : refreshMediaCache org repo path (Except.ok lst) now cache =
        (.ok (buildMediaStructures lst).uniqueItems
          (buildMediaStructures lst).uniqueItems.length now false,
         alSet (alDelete cache (cacheKey org repo path)) (cacheKey org repo path)
           ⟨(buildMediaStructures lst).uniqueItems, (buildMediaStructures lst).usageIndex,
            (buildMediaStructures lst).rawData, now⟩) := by
      rw [refreshMediaCache]
      exact getMediaIndex_miss_ok org repo path lst now _ hmiss
    constructor
    · rw [href]
    · rw [href]
      have hhit2 : alGet (alSet (alDelete cache (cacheKey org repo path))
          (cacheKey org repo path)
          ⟨(buildMediaStructures lst).uniqueItems, (buildMediaStructures lst).usageIndex,
           (buildMediaStructures lst).rawData, now⟩) (cacheKey org repo path) =
          some ⟨(buildMediaStructures lst).uniqueItems,
            (buildMediaStructures lst).usageIndex,
            (buildMediaStructures lst).rawData, now⟩ :=
        alGet_alSet_self _ _ _
      rw [getMediaIndex_hit org repo path fetch2 now2 _ _ hhit2]

/-- Witness for C4 at a concrete cached site and a concrete refresh. -/
theorem cache_correctness_witness :
    getMediaIndex "o" "r" none (Except.ok []) 0 [("o/r/", ⟨[], [], [], 5⟩)] =
      (.ok [] 0 5 true, [("o/r/", ⟨[], [], [], 5⟩)]) ∧
    (refreshMediaCache "o" "r" none (Except.ok []) 7 []).1 = .ok [] 0 7 false := by
  constructor
  · exact (cache_correctness "o" "r" none (Except.ok []) 0
      [("o/r/", ⟨[], [], [], 5⟩)]).1 ⟨[], [], [], 5⟩ rfl
  · exact ((cache_correctness "o" "r" none (Except.ok []) 7 []).2 []
      (Except.ok []) 9).1

/-- C6: on a fetch failure with no cache entry for the site, `get_index`
returns (never throws) the structured error payload carrying the `error`
marker, the `initUrl` and the debug info, and leaves the cache unchanged. -/
theorem fetch_failure_structured_error (org repo : String) (path : Option String)
    (msg : String) (now : Nat) (cache : Cache)
    (hmiss : alGet cache (cacheKey org repo path) = none) :
    getMediaIndex org repo path (Except.error msg) now cache =
      (.err (buildErrorResponse org repo path msg), cache) ∧
    (buildErrorResponse org repo path msg).error = "Media index not found" ∧
    (buildErrorResponse org repo path msg).debug.url = buildMediaUrl org repo path ∧
    (buildErrorResponse org repo path msg).debug.error = msg := by
  exact ⟨getMediaIndex_miss_err org repo path msg now cache hmiss, rfl, rfl, rfl⟩

/-- Witness for C6 on the empty cache. -/
theorem fetch_failure_structured_error_witness :
    getMediaIndex "o" "r" none (Except.error "boom") 0 [] =
      (.err (buildErrorResponse "o" "r" none "boom"), []) ∧
    (buildErrorResponse "o" "r" none "boom").error = "Media index not found" := by
  have h := fetch_failure_structured_error "o" "r" none "boom" 0 [] rfl
  exact ⟨h.1, h.2.1⟩

/-- Sum of the counter values of a type-count map (the sum of the
`byType` values). -/
def alSum (m : List (String × Nat)) : Nat :=
  (m.map (fun p => p.2)).sum

/-- Sum of the three alt-text counters. -/
def altSum (a : AltStatus) : Nat :=
  a.filled + a.decorative + a.notFilled

theorem alSum_alSet_bump (m : List (String × Nat)) (k : String)
    (h : (m.map (fun p => p.1)).Nodup) :
    alSum (alSet m k ((alGet m k).getD 0 + 1)) = alSum m + 1 := by
  induction m with
  | nil => rfl
  | cons p rest ih =>
      rw [List.map_cons] at h
      obtain ⟨hp, hrest⟩ := List.nodup_cons.mp h
      by_cases hpk : p.1 = k
      · have hb : (p.1 == k) = true := by simpa using hpk
        have hget : alGet (p :: rest) k = some p.2 := by
          rw [alGet_cons, if_pos hb]
        have hhas : alHas (p :: rest) k = true := by rw [alHas, hget]; rfl
        rw [alSet, if_pos hhas, List.map_cons, if_pos hb, hget]
        have hrk : ∀ q ∈ rest, q.1 ≠ k := by
          intro q hq hc
          exact hp (List.mem_map.mpr ⟨q, hq, by rw [hc, hpk]⟩)
        rw [map_update_id rest k _ hrk]
        simp [alSum]
        omega
      · have hb : (p.1 == k) = false := by simpa using hpk
        have hget : alGet (p :: rest) k = alGet rest k := by
          rw [alGet_cons, if_neg (by simp [hb])]
        have hhaseq : alHas (p :: rest) k = alHas rest k := by
          rw [alHas, alHas, hget]
        cases hhr : alHas rest k with
        | true =>
            have hhas : alHas (p :: rest) k = true := by rw [hhaseq]; exact hhr
            rw [alSet, if_pos hhas, List.map_cons, if_neg (by simp [hb]), hget]
            have htail : rest.map (fun q => if q.1 == k then
                (k, (alGet rest k).getD 0 + 1) else q) =
                alSet rest k ((alGet rest k).getD 0 + 1) := by
              rw [alSet, if_pos hhr]
            rw [htail]
            have := ih hrest
            simp only [alSum, List.map_cons, List.sum_cons] at this ⊢
            omega
        | false =>
            have hhas : alHas (p :: rest) k = false := by rw [hhaseq]; exact hhr
            have hgn : alGet (p :: rest) k = none := by
              rw [hget]
              cases hg : alGet rest k with
              | none => rfl
              | some v => rw [alHas, hg] at hhr; simp at hhr
            rw [alSet_notHas _ _ _ hhas, hgn]
            simp [alSum]
            omega

theorem alKeys_alSet_nodup (m : List (String × Nat)) (k : String) (v : Nat)
    (h : (m.map (fun p => p.1)).Nodup) :
    ((alSet m k v).map (fun p => p.1)).Nodup := by
  cases hhas : alHas m k with
  | true =>
      rw [alSet, if_pos hhas]
      have hkeys : (m.map (fun p => if p.1 == k then (k, v) else p)).map
          (fun p => p.1) = m.map (fun p => p.1) := by
        rw [List.map_map]
        apply List.map_congr_left
        intro p hp
        by_cases hpk : (p.1 == k) = true
        · simp only [Function.comp, hpk, if_true]
          exact (eq_of_beq hpk).symm
        · have hb : (p.1 == k) = false := by simpa using hpk
          simp [Function.comp, hb]
      rw [hkeys]
      exact h
  | false =>
      rw [alSet_notHas _ _ _ hhas, List.map_append]
      have hk : k ∉ m.map (fun p => p.1) := by
        intro hc
        obtain ⟨p, hp, hpk⟩ := List.mem_map.mp hc
        cases hf : m.find? (fun q => q.1 == k) with
        | none =>
            have := List.find?_eq_none.mp hf p hp
            simp [hpk] at this
        | some q => rw [alHas, alGet, hf] at hhas; simp at hhas
      simp [List.nodup_append, h, hk]

theorem altSum_statsStep (acc : StatsAcc) (r : RawRecord) :
    altSum (statsStep acc r).altStatus = altSum acc.altStatus + 1 := by
  by_cases h1 : r.alt = "null"
  · simp [statsStep, altSum, h1]
    omega
  · by_cases h2 : r.alt = ""
    · simp [statsStep, altSum, h1, h2]
      omega
    · simp [statsStep, altSum, h1, h2]
      omega

theorem stats_fold (l : List RawRecord) : ∀ acc : StatsAcc,
    (acc.typeCount.map (fun p => p.1)).Nodup →
    ((l.foldl statsStep acc).typeCount.map (fun p => p.1)).Nodup ∧
    alSum (l.foldl statsStep acc).typeCount = alSum acc.typeCount + l.length ∧
    altSum (l.foldl statsStep acc).altStatus = altSum acc.altStatus + l.length := by
  induction l with
  | nil =>
      intro acc h
      exact ⟨h, by simp, by simp⟩
  | cons r rest ih =>
      intro acc h
      rw [List.foldl_cons]
      have h1 : ((statsStep acc r).typeCount.map (fun p => p.1)).Nodup :=
        alKeys_alSet_nodup acc.typeCount _ _ h
      obtain ⟨ha, hb, hc⟩ := ih (statsStep acc r) h1
      refine ⟨ha, ?_, ?_⟩
      · rw [hb, show alSum (statsStep acc r).typeCount = alSum acc.typeCount + 1 from
          alSum_alSet_bump acc.typeCount _ h]
        simp [List.length_cons]
        omega
      · rw [hc, altSum_statsStep acc r]
        simp [List.length_cons]
        omega

theorem getMediaStats_hit (org repo : String) (path : Option String)
    (fetch : Except String (List RawRecord)) (now : Nat) (cache : Cache)
    (entry : CacheEntry) (hhit : alGet cache (cacheKey org repo path) = some entry) :
    getMediaStats org repo path fetch now cache =
      (.ok ⟨entry.uniqueItems.length, entry.rawData.length,
        (entry.rawData.foldl statsStep ⟨[], 0, ⟨0, 0, 0⟩⟩).typeCount,
        (entry.rawData.foldl statsStep ⟨[], 0, ⟨0, 0, 0⟩⟩).unusedCount,
        (entry.rawData.foldl statsStep ⟨[], 0, ⟨0, 0, 0⟩⟩).altStatus⟩, cache) := by
  rw [getMediaStats.eq_def, getMediaIndex_hit org repo path fetch now cache entry hhit]
  dsimp only
  rw [hhit]

/-- C2 (amended): for a site whose index has just been built from the raw
list `lst`, `get_stats` returns `totalReferences` equal to the full raw
record count (including records with an empty/missing url, which the code
does not exclude from `rawData`), the sum of the `byType` values equal to
`totalReferences`, and `altText.filled + altText.decorative +
altText.notFilled` equal to `totalReferences`. -/
theorem stats_totals (org repo : String) (path : Option String)
    (lst : List RawRecord) (now now2 : Nat) (fetch2 : Except String (List RawRecord))
    (cache : Cache) (hmiss : alGet cache (cacheKey org repo path) = none) :
    ∃ s : MediaStats,
      (getMediaStats org repo path fetch2 now2
        (getMediaIndex org repo path (Except.ok lst) now cache).2).1 = .ok s ∧
      s.totalReferences = lst.length ∧
      alSum s.byType = s.totalReferences ∧
      s.altText.filled + s.altText.decorative + s.altText.notFilled =
        s.totalReferences := by
  rw [getMediaIndex_miss_ok org repo path lst now cache hmiss]
  have hhit : alGet (alSet cache (cacheKey org repo path)
      ⟨(buildMediaStructures lst).uniqueItems, (buildMediaStructures lst).usageIndex,
       (buildMediaStructures lst).rawData, now⟩) (cacheKey org repo path) =
      some ⟨(buildMediaStructures lst).uniqueItems, (buildMediaStructures lst).usageIndex,
       (buildMediaStructures lst).rawData, now⟩ := alGet_alSet_self _ _ _
  rw [getMediaStats_hit org repo path fetch2 now2 _ _ hhit]
  have hfold := stats_fold (buildMediaStructures lst).rawData ⟨[], 0, ⟨0, 0, 0⟩⟩
    (by simp)
  obtain ⟨-, hsum, halt⟩ := hfold
  refine ⟨_, rfl, ?_, ?_, ?_⟩
  · rfl
  · show alSum ((buildMediaStructures lst).rawData.foldl statsStep
      ⟨[], 0, ⟨0, 0, 0⟩⟩).typeCount = (buildMediaStructures lst).rawData.length
    rw [hsum]
    simp [alSum]
  · show altSum ((buildMediaStructures lst).rawData.foldl statsStep
      ⟨[], 0, ⟨0, 0, 0⟩⟩).altStatus = (buildMediaStructures lst).rawData.length
    rw [halt]
    simp [altSum]

/-- Witness for C2 (amended) on a concrete two-record list (one record with
an empty url). -/
theorem stats_totals_witness :
    ∃ s : MediaStats,
      (getMediaStats "o" "r" none (Except.ok []) 1
        (getMediaIndex "o" "r" none
          (Except.ok [⟨"a.png", "p1", "x", "img", 0, 0, "h"⟩,
            ⟨"", "", "", "", 0, 0, ""⟩]) 0 []).2).1 = .ok s ∧
      s.totalReferences = 2 ∧
      alSum s.byType = s.totalReferences ∧
      s.altText.filled + s.altText.decorative + s.altText.notFilled =
        s.totalReferences :=
  stats_totals "o" "r" none
    [⟨"a.png", "p1", "x", "img", 0, 0, "h"⟩, ⟨"", "", "", "", 0, 0, ""⟩]
    0 1 (Except.ok []) [] rfl

/-- Counterexample to C2 as stated: after building the index from a single
record whose url is empty, `get_stats` reports `totalReferences = 1`,
whereas the number of raw records after excluding empty-url records is
`0`. -/
theorem stats_totals_counterexample :
    (getMediaStats "o" "r" none (Except.ok []) 0
        (getMediaIndex "o" "r" none
          (Except.ok [⟨"", "", "", "", 0, 0, ""⟩]) 0 []).2).1 =
      .ok ⟨0, 1, [("unknown", 1)], 1, ⟨0, 1, 0⟩⟩ ∧
    (([⟨"", "", "", "", 0, 0, ""⟩] : List RawRecord).filter
      (fun r => r.url != "")).length = 0 ∧
    (1 : Nat) ≠ 0 := by
  refine ⟨by decide, by decide, by decide⟩

theorem buildMediaStructures_uniqueItems (l : List RawRecord) :
    (buildMediaStructures l).uniqueItems =
      (dedupFirstOcc (keysOf l)).map (uiEntry l) := by
  show (l.foldl buildStep ([], [])).1.map (fun p => p.2) = _
  rw [build_loop_canonical, canonicalUI, List.map_map]
  rfl

theorem buildMediaStructures_usageIndex (l : List RawRecord) :
    (buildMediaStructures l).usageIndex = canonicalUS l := by
  show (l.foldl buildStep ([], [])).2 = _
  rw [build_loop_canonical]

theorem uiEntry_item_head (l : List RawRecord) (k : String)
    (hne : keyRecords l k ≠ []) :
    (keyRecords l k).head? = some (uiEntry l k).item ∧
    (uiEntry l k).item.url ≠ "" ∧
    getGroupingKey (uiEntry l k).item.url = k := by
  cases hkr : keyRecords l k with
  | nil => exact absurd hkr hne
  | cons r0 rest =>
      have hmem : r0 ∈ l.filter (fun r => r.url != "" && keyOf r == k) := by
        rw [← keyRecords, hkr]
        exact List.mem_cons_self _ _
      have hpred := (List.mem_filter.mp hmem).2
      simp only [Bool.and_eq_true, bne_iff_ne, ne_eq, beq_iff_eq] at hpred
      have hitem : (uiEntry l k).item = r0 := by
        rw [uiEntry, hkr]
        rfl
      refine ⟨?_, ?_, ?_⟩
      · rw [hitem]
        rfl
      · rw [hitem]
        exact hpred.1
      · rw [hitem]
        exact hpred.2

/-- C1: every catalogue entry's `usageCount` equals the length of the
usage-index sequence stored under the entry's canonical key. -/
theorem usage_count_invariant (rawData : List RawRecord) (e : UniqueItem)
    (he : e ∈ (buildMediaStructures rawData).uniqueItems) :
    ∃ seqn : List UsageDetail,
      alGet (buildMediaStructures rawData).usageIndex
        (getGroupingKey e.item.url) = some seqn ∧
      e.usageCount = seqn.length := by
  rw [buildMediaStructures_uniqueItems] at he
  obtain ⟨k, hk, hke⟩ := List.mem_map.mp he
  have hne : keyRecords rawData k ≠ [] :=
    keyRecords_ne_nil_of_mem _ _ ((mem_dedupFirstOcc _ _).mp hk)
  have hkey : getGroupingKey e.item.url = k := by
    rw [← hke]
    exact (uiEntry_item_head rawData k hne).2.2
  rw [buildMediaStructures_usageIndex, hkey, canonicalUS, alGet_mapKeys, if_pos hk]
  refine ⟨_, rfl, ?_⟩
  rw [← hke]
  simp [uiEntry, usEntry]

/-- Witness for C1 on a concrete one-record raw list. -/
theorem usage_count_invariant_witness :
    ∃ seqn : List UsageDetail,
      alGet (buildMediaStructures [⟨"a.png", "p", "cat", "img", 0, 0, "h"⟩]).usageIndex
        (getGroupingKey ((⟨⟨"a.png", "p", "cat", "img", 0, 0, "h"⟩, 1⟩ :
          UniqueItem)).item.url) = some seqn ∧
      ((⟨⟨"a.png", "p", "cat", "img", 0, 0, "h"⟩, 1⟩ : UniqueItem)).usageCount =
        seqn.length :=
  usage_count_invariant [⟨"a.png", "p", "cat", "img", 0, 0, "h"⟩]
    ⟨⟨"a.png", "p", "cat", "img", 0, 0, "h"⟩, 1⟩ (by decide)

/-- C9: a catalogue entry's fields other than `usageCount` are a copy of
the first raw record (in document order) carrying its canonical key, and
`usageCount` equals the number of records sharing that key (at least 1). -/
theorem first_seen_snapshot (rawData : List RawRecord) (e : UniqueItem)
    (he : e ∈ (buildMediaStructures rawData).uniqueItems) :
    (keyRecords rawData (getGroupingKey e.item.url)).head? = some e.item ∧
    e.usageCount = (keyRecords rawData (getGroupingKey e.item.url)).length ∧
    1 ≤ e.usageCount := by
  rw [buildMediaStructures_uniqueItems] at he
  obtain ⟨k, hk, hke⟩ := List.mem_map.mp he
  have hne : keyRecords rawData k ≠ [] :=
    keyRecords_ne_nil_of_mem _ _ ((mem_dedupFirstOcc _ _).mp hk)
  have hkey : getGroupingKey e.item.url = k := by
    rw [← hke]
    exact (uiEntry_item_head rawData k hne).2.2
  rw [hkey]
  refine ⟨?_, ?_, ?_⟩
  · rw [← hke]
    exact (uiEntry_item_head rawData k hne).1
  · rw [← hke]
    rfl
  · rw [← hke]
    show 1 ≤ (keyRecords rawData k).length
    have := List.length_pos.mpr hne
    omega

/-- Witness for C9: two records sharing one key, snapshot is the first. -/
theorem first_seen_snapshot_witness :
    (keyRecords [⟨"a.png", "p1", "", "img", 0, 0, "h1"⟩,
        ⟨"A.PNG?x=1", "p2", "cat", "img", 0, 0, "h2"⟩]
      (getGroupingKey ((⟨⟨"a.png", "p1", "", "img", 0, 0, "h1"⟩, 2⟩ :
        UniqueItem)).item.url)).head? =
      some ((⟨⟨"a.png", "p1", "", "img", 0, 0, "h1"⟩, 2⟩ : UniqueItem)).item ∧
    ((⟨⟨"a.png", "p1", "", "img", 0, 0, "h1"⟩, 2⟩ : UniqueItem)).usageCount =
      (keyRecords [⟨"a.png", "p1", "", "img", 0, 0, "h1"⟩,
        ⟨"A.PNG?x=1", "p2", "cat", "img", 0, 0, "h2"⟩]
        (getGroupingKey ((⟨⟨"a.png", "p1", "", "img", 0, 0, "h1"⟩, 2⟩ :
        UniqueItem)).item.url)).length ∧
    1 ≤ ((⟨⟨"a.png", "p1", "", "img", 0, 0, "h1"⟩, 2⟩ : UniqueItem)).usageCount :=
  first_seen_snapshot
    [⟨"a.png", "p1", "", "img", 0, 0, "h1"⟩, ⟨"A.PNG?x=1", "p2", "cat", "img", 0, 0, "h2"⟩]
    ⟨⟨"a.png", "p1", "", "img", 0, 0, "h1"⟩, 2⟩ (by decide)

/-- C3: the number of catalogue entries is at most the number of raw
records with a non-empty location identifier, with equality iff those
records' canonical keys are pairwise distinct; and a record with an
empty/missing location identifier is invisible to both built structures. -/
theorem dedup_invariant :
    (∀ rawData : List RawRecord,
      (buildMediaStructures rawData).uniqueItems.length ≤ (eligible rawData).length ∧
      ((buildMediaStructures rawData).uniqueItems.length = (eligible rawData).length ↔
        (keysOf rawData).Nodup)) ∧
    (∀ l1 l2 : List RawRecord, ∀ r : RawRecord, r.url = "" →
      (buildMediaStructures (l1 ++ r :: l2)).uniqueItems =
        (buildMediaStructures (l1 ++ l2)).uniqueItems ∧
      (buildMediaStructures (l1 ++ r :: l2)).usageIndex =
        (buildMediaStructures (l1 ++ l2)).usageIndex) := by
  constructor
  · intro rawData
    have hlen : (buildMediaStructures rawData).uniqueItems.length =
        (dedupFirstOcc (keysOf rawData)).length := by
      rw [buildMediaStructures_uniqueItems, List.length_map]
    have hkeys : (keysOf rawData).length = (eligible rawData).length := by
      rw [keysOf, List.length_map]
    constructor
    · rw [hlen, ← hkeys]
      exact length_dedupFirstOcc_le _
    · rw [hlen, ← hkeys]
      exact length_dedupFirstOcc_eq_iff _
  · intro l1 l2 r hurl
    have hfold : (l1 ++ r :: l2).foldl buildStep ([], []) =
        (l1 ++ l2).foldl buildStep ([], []) := by
      rw [List.foldl_append, List.foldl_cons, buildStep_skip _ r hurl,
        ← List.foldl_append]
    constructor
    · show ((l1 ++ r :: l2).foldl buildStep ([], [])).1.map (fun p => p.2) =
        ((l1 ++ l2).foldl buildStep ([], [])).1.map (fun p => p.2)
      rw [hfold]
    · show ((l1 ++ r :: l2).foldl buildStep ([], [])).2 =
        ((l1 ++ l2).foldl buildStep ([], [])).2
      rw [hfold]

/-- Witness for C3: the empty-url record hypothesis discharged on a
concrete list. -/
theorem dedup_invariant_witness :
    (buildMediaStructures [⟨"a.png", "p", "", "img", 0, 0, "h"⟩]).uniqueItems.length ≤
      (eligible [⟨"a.png", "p", "", "img", 0, 0, "h"⟩]).length ∧
    (buildMediaStructures ([⟨"a.png", "p", "", "img", 0, 0, "h"⟩] ++
        ⟨"", "x", "y", "z", 0, 0, "w"⟩ :: [])).uniqueItems =
      (buildMediaStructures ([⟨"a.png", "p", "", "img", 0, 0, "h"⟩] ++ [])).uniqueItems :=
  ⟨(dedup_invariant.1 [⟨"a.png", "p", "", "img", 0, 0, "h"⟩]).1,
   (dedup_invariant.2 [⟨"a.png", "p", "", "img", 0, 0, "h"⟩] []
     ⟨"", "x", "y", "z", 0, 0, "w"⟩ rfl).1⟩

theorem takeWhile_eq_self_of_all {α : Type} (p : α → Bool) (a : List α)
    (h : ∀ x ∈ a, p x = true) : a.takeWhile p = a := by
  induction a with
  | nil => rfl
  | cons x xs ih =>
      have hx := h x (List.mem_cons_self _ _)
      simp only [List.takeWhile, hx]
      rw [ih (fun y hy => h y (List.mem_cons.mpr (Or.inr hy)))]

theorem takeWhile_append_of_all {α : Type} (p : α → Bool) (a b : List α)
    (h : ∀ x ∈ a, p x = true) : (a ++ b).takeWhile p = a ++ b.takeWhile p := by
  induction a with
  | nil => rfl
  | cons x xs ih =>
      have hx := h x (List.mem_cons_self _ _)
      simp only [List.cons_append, List.takeWhile, List.append_eq, hx]
      rw [ih (fun y hy => h y (List.mem_cons.mpr (Or.inr hy)))]

/-- C5: the key normalizer maps an empty/absent location identifier to the
empty string, and truncation at the first question mark makes the key of
any question-mark-free `u` agree with the key of `u` extended by a query
string. -/
theorem canonical_key_normalization :
    getGroupingKey "" = "" ∧
    ∀ u : String, ('?' ∉ u.data) →
      getGroupingKey u = getGroupingKey (u ++ "?x=1") := by
  refine ⟨rfl, ?_⟩
  intro u hq
  by_cases hu : u = ""
  · subst hu
    decide
  · have hdata : (u ++ "?x=1").data = u.data ++ '?' :: ['x', '=', '1'] := by
      rw [String.data_append]
    have happ : u ++ "?x=1" ≠ "" := by
      intro hc
      have h2 := congrArg String.data hc
      rw [hdata] at h2
      simp at h2
    rw [getGroupingKey, if_neg hu, getGroupingKey, if_neg happ, hdata]
    have hall : ∀ c ∈ u.data, (decide ¬(c = '?')) = true := by
      intro c hc
      simp only [decide_eq_true_eq]
      intro hceq
      exact hq (hceq ▸ hc)
    rw [takeWhile_append_of_all _ _ _ hall,
      takeWhile_eq_self_of_all _ _ hall]
    simp [List.takeWhile]

/-- Witness for C5 at a concrete question-mark-free identifier. -/
theorem canonical_key_normalization_witness :
    ('?' ∉ ("Abc" : String).data) ∧
    getGroupingKey "Abc" = getGroupingKey ("Abc" ++ "?x=1") :=
  ⟨by decide, canonical_key_normalization.2 "Abc" (by decide)⟩

theorem jsSetDedupAux (l : List String) : ∀ acc : List String,
    l.foldl (fun acc x => if x ∈ acc then acc else acc ++ [x]) acc =
      acc ++ dedupFirstOcc (l.filter (fun y => !(decide (y ∈ acc)))) := by
  induction l with
  | nil =>
      intro acc
      simp [dedupFirstOcc]
  | cons x rest ih =>
      intro acc
      rw [List.foldl_cons]
      by_cases hx : x ∈ acc
      · rw [if_pos hx, ih]
        have hfil : (x :: rest).filter (fun y => !(decide (y ∈ acc))) =
            rest.filter (fun y => !(decide (y ∈ acc))) := by
          simp [List.filter, hx]
        rw [hfil]
      · rw [if_neg hx, ih]
        have hfil : (x :: rest).filter (fun y => !(decide (y ∈ acc))) =
            x :: rest.filter (fun y => !(decide (y ∈ acc))) := by
          simp [List.filter, hx]
        rw [hfil, dedupFirstOcc]
        have hfuse : rest.filter (fun y => !(decide (y ∈ acc ++ [x]))) =
            (rest.filter (fun y => !(decide (y ∈ acc)))).filter (fun y => y != x) := by
          rw [List.filter_filter]
          apply List.filter_congr
          intro y _
          by_cases h1 : y ∈ acc
          · simp [h1, List.mem_append]
          · by_cases h2 : y = x
            · simp [h1, h2, List.mem_append]
            · simp [h1, h2, List.mem_append]
        rw [hfuse, List.append_assoc]
        rfl

theorem jsSetDedup_eq (l : List String) : jsSetDedup l = dedupFirstOcc l := by
  rw [jsSetDedup, jsSetDedupAux]
  simp

theorem docs_characterization (us : List UsageDetail) :
    jsSetDedup ((us.map (fun u => u.doc)).filter (fun d => d != "")) =
      dedupFirstOcc ((us.map (fun u => u.doc)).filter (fun d => d != "")) ∧
    (jsSetDedup ((us.map (fun u => u.doc)).filter (fun d => d != ""))).Nodup ∧
    ∀ d, d ∈ jsSetDedup ((us.map (fun u => u.doc)).filter (fun d => d != "")) ↔
      (d ≠ "" ∧ d ∈ us.map (fun u => u.doc)) := by
  refine ⟨jsSetDedup_eq _, ?_, ?_⟩
  · rw [jsSetDedup_eq]
    exact nodup_dedupFirstOcc _
  · intro d
    rw [jsSetDedup_eq, mem_dedupFirstOcc, List.mem_filter]
    simp only [bne_iff_ne, ne_eq, decide_eq_true_eq]
    constructor
    · rintro ⟨h1, h2⟩
      exact ⟨h2, h1⟩
    · rintro ⟨h1, h2⟩
      exact ⟨h2, h1⟩

/-- C7: for a site with a built index, when `find_usage` resolves no
canonical key (the supplied `mediaUrl` key is not in the usage index, the
supplied `mediaName` matches no key, or neither is supplied), it returns
exactly the not-found result and leaves the cache unchanged. -/
theorem find_usage_not_found (org repo : String) (path : Option String)
    (mediaUrl mediaName : Option String) (fetch : Except String (List RawRecord))
    (now : Nat) (cache : Cache) (entry : CacheEntry)
    (hhit : alGet cache (cacheKey org repo path) = some entry)
    (hnores :
      (mediaUrl.getD "" = "" ∧ mediaName.getD "" = "") ∨
      (mediaUrl.getD "" ≠ "" ∧
        alHas entry.usageIndex (getGroupingKey (mediaUrl.getD "")) = false) ∨
      (mediaUrl.getD "" = "" ∧ mediaName.getD "" ≠ "" ∧
        entry.usageIndex.find? (fun p => jsIncludes p.1
          ⟨(mediaName.getD "").data.map Char.toLower⟩) = none)) :
    findMediaUsage org repo path mediaUrl mediaName fetch now cache =
      (FindResult.result none 0 [] [], cache) := by
  rw [findMediaUsage.eq_def, getMediaIndex_hit org repo path fetch now cache entry hhit]
  dsimp only
  rw [hhit]
  dsimp only
  rcases hnores with ⟨h1, h2⟩ | ⟨h1, h2⟩ | ⟨h1, h2, h3⟩
  · rw [if_neg (by simp [h1]), if_neg (by simp [h2])]
  · rw [if_pos h1]
    dsimp only
    rw [if_pos (Or.inr h2)]
  · rw [if_neg (by simp [h1]), if_pos h2, h3]
    rfl

/-- Witness for C7: a cached site queried with neither url nor name. -/
theorem find_usage_not_found_witness :
    findMediaUsage "o" "r" none none none (Except.ok []) 0
        [("o/r/", ⟨[], [], [], 3⟩)] =
      (FindResult.result none 0 [] [], [("o/r/", ⟨[], [], [], 3⟩)]) :=
  find_usage_not_found "o" "r" none none none (Except.ok []) 0
    [("o/r/", ⟨[], [], [], 3⟩)] ⟨[], [], [], 3⟩ rfl (Or.inl ⟨rfl, rfl⟩)

/-- C8 (amended): invoked for a site with no cache entry, `find_usage`
first triggers a fetch-and-build through `getMediaIndex`: on fetch failure
it returns the index error payload (error "Media index not found"); on
fetch success it builds, caches and returns a normal usage result; the
"Media data not loaded" branch is never taken. -/
theorem find_usage_before_build (org repo : String) (path : Option String)
    (mediaUrl mediaName : Option String) (now : Nat) (cache : Cache)
    (hmiss : alGet cache (cacheKey org repo path) = none) :
    (∀ msg, findMediaUsage org repo path mediaUrl mediaName
        (Except.error msg) now cache =
      (FindResult.err (buildErrorResponse org repo path msg), cache)) ∧
    (∀ lst : List RawRecord, ∃ mi uc docs us,
      (findMediaUsage org repo path mediaUrl mediaName
          (Except.ok lst) now cache).1 = FindResult.result mi uc docs us) ∧
    (∀ fetch : Except String (List RawRecord),
      (findMediaUsage org repo path mediaUrl mediaName fetch now cache).1 ≠
        FindResult.errNotLoaded) := by
  have herr : ∀ msg, findMediaUsage org repo path mediaUrl mediaName
      (Except.error msg) now cache =
      (FindResult.err (buildErrorResponse org repo path msg), cache) := by
    intro msg
    rw [findMediaUsage.eq_def,
      getMediaIndex_miss_err org repo path msg now cache hmiss]
  have hok : ∀ lst : List RawRecord, ∃ mi uc docs us,
      (findMediaUsage org repo path mediaUrl mediaName
        (Except.ok lst) now cache).1 = FindResult.result mi uc docs us := by
    intro lst
    rw [findMediaUsage.eq_def,
      getMediaIndex_miss_ok org repo path lst now cache hmiss]
    dsimp only
    rw [alGet_alSet_self]
    dsimp only
    by_cases h1 : mediaUrl.getD "" ≠ ""
    · rw [if_pos h1]
      dsimp only
      by_cases h2 : getGroupingKey (mediaUrl.getD "") = "" ∨
          alHas (buildMediaStructures lst).usageIndex
            (getGroupingKey (mediaUrl.getD "")) = false
      · rw [if_pos h2]
        exact ⟨_, _, _, _, rfl⟩
      · rw [if_neg h2]
        exact ⟨_, _, _, _, rfl⟩
    · rw [if_neg h1]
      by_cases h2 : mediaName.getD "" ≠ ""
      · rw [if_pos h2]
        cases hf : ((buildMediaStructures lst).usageIndex.find?
            (fun p => jsIncludes p.1
              ⟨(mediaName.getD "").data.map Char.toLower⟩)) with
        | none =>
            exact ⟨_, _, _, _, rfl⟩
        | some q =>
            rw [show Option.map (fun p : String × List UsageDetail => p.1)
              (some q) = some q.1 from rfl]
            dsimp only
            by_cases h3 : q.1 = "" ∨ alHas (buildMediaStructures lst).usageIndex
                q.1 = false
            · rw [if_pos h3]
              exact ⟨_, _, _, _, rfl⟩
            · rw [if_neg h3]
              exact ⟨_, _, _, _, rfl⟩
      · rw [if_neg h2]
        exact ⟨_, _, _, _, rfl⟩
  refine ⟨herr, hok, ?_⟩
  intro fetch
  cases fetch with
  | error msg =>
      rw [herr msg]
      exact fun hc => FindResult.noConfusion hc
  | ok lst =>
      obtain ⟨mi, uc, docs, us, heq⟩ := hok lst
      rw [heq]
      exact fun hc => FindResult.noConfusion hc

/-- Witness for C8 (amended): empty cache, failing and succeeding fetch. -/
theorem find_usage_before_build_witness :
    findMediaUsage "o" "r" none none none (Except.error "m") 0 [] =
      (FindResult.err (buildErrorResponse "o" "r" none "m"), []) ∧
    (findMediaUsage "o" "r" none none none (Except.ok []) 0 []).1 ≠
      FindResult.errNotLoaded :=
  ⟨(find_usage_before_build "o" "r" none none none 0 [] rfl).1 "m",
   (find_usage_before_build "o" "r" none none none 0 [] rfl).2.2 (Except.ok [])⟩

/-- Counterexample to C8 as stated: with no prior successful build and a
failing fetch, `find_usage` returns the index error payload, whose error
field is "Media index not found", not the claimed
`{error: "Media data not loaded"}` object. -/
theorem find_usage_before_build_counterexample :
    (findMediaUsage "o" "r" none none none (Except.error "boom") 0 []).1 =
      FindResult.err (buildErrorResponse "o" "r" none "boom") ∧
    (findMediaUsage "o" "r" none none none (Except.error "boom") 0 []).1 ≠
      FindResult.errNotLoaded ∧
    (buildErrorResponse "o" "r" none "boom").error = "Media index not found" := by
  refine ⟨by decide, by decide, by decide⟩

theorem found_branch_characterization (usages : List UsageDetail) :
    jsSetDedup ((usages.map (fun u => u.doc)).filter (fun d => d ≠ "")) =
      dedupFirstOcc ((usages.map (fun u => u.doc)).filter (fun d => d != "")) ∧
    (jsSetDedup ((usages.map (fun u => u.doc)).filter (fun d => d ≠ ""))).Nodup ∧
    (∀ d, d ∈ jsSetDedup ((usages.map (fun u => u.doc)).filter (fun d => d ≠ "")) ↔
      (d ≠ "" ∧ d ∈ usages.map (fun u => u.doc))) ∧
    usages.length = usages.length := by
  have hfe : (usages.map (fun u => u.doc)).filter (fun d => decide (d ≠ "")) =
      (usages.map (fun u => u.doc)).filter (fun d => d != "") := by
    apply List.filter_congr
    intro d _
    by_cases h : d = ""
    · simp [h]
    · simp [h]
  rw [hfe]
  have hch := docs_characterization usages
  exact ⟨hch.1, hch.2.1, hch.2.2, rfl⟩

/-- C10: in every `find_usage` result of the usage-result shape, the
documents list is exactly the order-preserving first-occurrence
deduplication of the non-empty `doc` values of the returned usage records:
it is duplicate-free, contains a string iff it is a non-empty `doc` of some
returned usage, and `usageCount` equals the number of returned usages
(empty-doc usages counting towards it but not towards `documents`). -/
theorem find_usage_documents (org repo : String) (path : Option String)
    (mediaUrl mediaName : Option String) (fetch : Except String (List RawRecord))
    (now : Nat) (cache cache2 : Cache) (mi : Option UniqueItem) (uc : Nat)
    (docs : List String) (us : List UsageDetail)
    (hres : findMediaUsage org repo path mediaUrl mediaName fetch now cache =
      (FindResult.result mi uc docs us, cache2)) :
    docs = dedupFirstOcc ((us.map (fun u => u.doc)).filter (fun d => d != "")) ∧
    docs.Nodup ∧
    (∀ d, d ∈ docs ↔ (d ≠ "" ∧ d ∈ us.map (fun u => u.doc))) ∧
    uc = us.length := by
  rw [findMediaUsage.eq_def] at hres
  split at hres
  · simp at hres
  · rename_i heq
    dsimp only at hres
    split at hres
    · simp at hres
    · split at hres
      · simp only [Prod.mk.injEq, FindResult.result.injEq] at hres
        obtain ⟨⟨hmi, huc, hdocs, hus⟩, hc2⟩ := hres
        subst huc
        subst hdocs
        subst hus
        refine ⟨by simp [dedupFirstOcc], by simp, ?_, rfl⟩
        intro d
        simp
      · split at hres
        · simp only [Prod.mk.injEq, FindResult.result.injEq] at hres
          obtain ⟨⟨hmi, huc, hdocs, hus⟩, hc2⟩ := hres
          subst huc
          subst hdocs
          subst hus
          refine ⟨by simp [dedupFirstOcc], by simp, ?_, rfl⟩
          intro d
          simp
        · simp only [Prod.mk.injEq, FindResult.result.injEq] at hres
          obtain ⟨⟨hmi, huc, hdocs, hus⟩, hc2⟩ := hres
          subst huc
          subst hdocs
          subst hus
          exact found_branch_characterization _

/-- Witness for C10 on a concrete three-usage lookup (one usage with an
empty `doc`). -/
theorem find_usage_documents_witness :
    (["p1", "p2"] : List String) = dedupFirstOcc
      ((([⟨"p1", "", "img", 0, 0, "h1"⟩, ⟨"p2", "cat", "img", 0, 0, "h2"⟩,
          ⟨"", "x", "img", 0, 0, "h3"⟩] : List UsageDetail).map
        (fun u => u.doc)).filter (fun d => d != "")) ∧
    (["p1", "p2"] : List String).Nodup ∧
    (∀ d, d ∈ (["p1", "p2"] : List String) ↔ (d ≠ "" ∧
      d ∈ ([⟨"p1", "", "img", 0, 0, "h1"⟩, ⟨"p2", "cat", "img", 0, 0, "h2"⟩,
          ⟨"", "x", "img", 0, 0, "h3"⟩] : List UsageDetail).map (fun u => u.doc))) ∧
    (3 : Nat) = ([⟨"p1", "", "img", 0, 0, "h1"⟩, ⟨"p2", "cat", "img", 0, 0, "h2"⟩,
      ⟨"", "x", "img", 0, 0, "h3"⟩] : List UsageDetail).length :=
  find_usage_documents "o" "r" none (some "a.png?zz") none
    (Except.ok [⟨"a.png?x=1", "p1", "", "img", 0, 0, "h1"⟩,
      ⟨"a.png", "p2", "cat", "img", 0, 0, "h2"⟩,
      ⟨"a.png", "", "x", "img", 0, 0, "h3"⟩]) 0 []
    ((findMediaUsage "o" "r" none (some "a.png?zz") none
      (Except.ok [⟨"a.png?x=1", "p1", "", "img", 0, 0, "h1"⟩,
        ⟨"a.png", "p2", "cat", "img", 0, 0, "h2"⟩,
        ⟨"a.png", "", "x", "img", 0, 0, "h3"⟩]) 0 []).2)
    (some ⟨⟨"a.png?x=1", "p1", "", "img", 0, 0, "h1"⟩, 3⟩) 3 ["p1", "p2"]
    [⟨"p1", "", "img", 0, 0, "h1"⟩, ⟨"p2", "cat", "img", 0, 0, "h2"⟩,
      ⟨"", "x", "img", 0, 0, "h3"⟩]
    (by decide)
